import Mathlib

/-!
# Verification of the LADSPA plugin frequency-response tester

Shallow embedding of `src/test-plugin.py` (class `PluginTester`).

Python floats are modelled as real numbers (`ℝ`); values that the program
parses out of textual tool output are modelled as rationals (`ℚ`), so the
text-processing part of the embedding is executable.  External tools
(`sox`, `riaa_process`, `analyseplugin`) are modelled as oracles: a `Bool`
success flag for each subprocess invocation and a `String` for each textual
report the program parses.
-/

namespace PluginTester

/-! ## RMS-to-dB conversion (`PluginTester.rms_to_db`, lines 316-328)

```python
if rms <= 0:
    return -200  # Very low value for silence
db = 20 * math.log10(rms) + 3.0103
return db
```
-/

noncomputable def rms_to_db (rms : ℝ) : ℝ :=
  if rms ≤ 0 then -200 else 20 * Real.logb 10 rms + 3.0103

/-! ## Window planner (`PluginTester.measure_frequency`, lines 205-216)

```python
min_cycles = 100
cycle_duration = 1.0 / frequency
adaptive_duration = max(min_cycles * cycle_duration, 1.0)
adaptive_duration = min(adaptive_duration, 10.0)
trim_start = 0.2 * adaptive_duration / self.duration
trim_len = 0.6 * adaptive_duration / self.duration
```
-/

noncomputable def adaptive_duration (frequency : ℝ) : ℝ :=
  min (max (100 * (1 / frequency)) 1) 10

noncomputable def trim_start_adj (frequency duration : ℝ) : ℝ :=
  0.2 * adaptive_duration frequency / duration

noncomputable def trim_len_adj (frequency duration : ℝ) : ℝ :=
  0.6 * adaptive_duration frequency / duration

/-! ## Numeric bounds on `logb 10 2` used below -/

lemma logb_ten_two_lower : (30003 : ℝ) / 100000 < Real.logb 10 2 := by
  have hpow : (10 : ℝ) ^ (30003 : ℕ) < 2 ^ (100000 : ℕ) := by norm_num
  have h := Real.logb_lt_logb (b := 10) (by norm_num)
    (x := (10 : ℝ) ^ (30003 : ℕ)) (pow_pos (by norm_num) _) hpow
  rw [Real.logb_pow, Real.logb_pow, Real.logb_self_eq_one (by norm_num)] at h
  push_cast at h
  linarith

lemma logb_ten_two_upper : Real.logb 10 2 < (30103 : ℝ) / 100000 := by
  have hpow : (2 : ℝ) ^ (100000 : ℕ) < 10 ^ (30103 : ℕ) := by norm_num
  have h := Real.logb_lt_logb (b := 10) (by norm_num)
    (x := (2 : ℝ) ^ (100000 : ℕ)) (pow_pos (by norm_num) _) hpow
  rw [Real.logb_pow, Real.logb_pow, Real.logb_self_eq_one (by norm_num)] at h
  push_cast at h
  linarith

lemma logb_ten_sqrt_two : Real.logb 10 (Real.sqrt 2) = Real.logb 10 2 / 2 := by
  unfold Real.logb
  rw [Real.log_sqrt (by norm_num)]
  ring

/-! ## Frequency ladder and sweep engine (`PluginTester.run_sweep`, lines 330-352)

```python
results = []
frequency = self.f_min
while frequency <= self.f_max:
    rms_values = self.measure_frequency(frequency)
    if rms_values is not None:
        db_values = [self.rms_to_db(rms) for rms in rms_values]
        results.append((frequency, db_values))
    else:
        db_values = [-200] * self.num_outputs
        results.append((frequency, db_values))
    frequency *= 2 ** (1 / self.steps_per_oct)
return results
```

The while loop is modelled with explicit fuel; every theorem below that
speaks about a complete sweep assumes the fuel is large enough for the loop
to have terminated (`fMax < fMin * r ^ fuel`), which always holds for some
fuel because the step ratio exceeds `1`.
-/

/-- The per-step frequency ratio `2 ** (1 / steps_per_oct)` for a positive
integer steps-per-octave setting. -/
noncomputable def sweepStep (stepsPerOctave : ℕ) : ℝ :=
  (2 : ℝ) ^ ((1 : ℝ) / (stepsPerOctave : ℝ))

/-- The sequence of frequencies visited by the `while` loop of `run_sweep`:
starting from `f`, repeatedly multiply by `r` while the value is `≤ fMax`. -/
noncomputable def ladderAux (r fMax : ℝ) : ℕ → ℝ → List ℝ
  | 0, _ => []
  | fuel + 1, f => if f ≤ fMax then f :: ladderAux r fMax fuel (f * r) else []

/-- One iteration body of `run_sweep`: the record appended for frequency `f`,
given the measurement oracle `measure` (modelling `measure_frequency`, which
returns the per-channel RMS list or `None`). -/
noncomputable def sweepRecord (measure : ℝ → Option (List ℝ)) (numOutputs : ℕ)
    (f : ℝ) : ℝ × List ℝ :=
  (f, match measure f with
      | some rmsValues => rmsValues.map rms_to_db
      | none => List.replicate numOutputs (-200))

/-- `run_sweep`, with the step ratio `r` precomputed (the Python expression
`2 ** (1 / self.steps_per_oct)`, see `sweepStep`). -/
noncomputable def run_sweep (measure : ℝ → Option (List ℝ)) (numOutputs : ℕ)
    (r fMax : ℝ) : ℕ → ℝ → List (ℝ × List ℝ)
  | 0, _ => []
  | fuel + 1, f =>
    if f ≤ fMax then
      sweepRecord measure numOutputs f :: run_sweep measure numOutputs r fMax fuel (f * r)
    else []

/-- The Python expression `2 ** (1 / self.steps_per_oct)` for an arbitrary
integer `--steps` value: `1 / 0` raises `ZeroDivisionError`, modelled as
`none`. -/
noncomputable def py_step_factor (stepsPerOctave : ℤ) : Option ℝ :=
  if stepsPerOctave = 0 then none
  else some ((2 : ℝ) ^ ((1 : ℝ) / (stepsPerOctave : ℝ)))

/-- `run_sweep` with Python error semantics for the ladder advance: the
returned flag is `true` iff the loop aborted with `ZeroDivisionError`.  The
record for the current frequency is appended *before* the crash, exactly as
in the source (the `results.append` precedes `frequency *= ...`). -/
noncomputable def run_sweep_py (measure : ℝ → Option (List ℝ)) (numOutputs : ℕ)
    (stepsPerOctave : ℤ) (fMax : ℝ) : ℕ → ℝ → List (ℝ × List ℝ) × Bool
  | 0, _ => ([], false)
  | fuel + 1, f =>
    if f ≤ fMax then
      match py_step_factor stepsPerOctave with
      | none => ([sweepRecord measure numOutputs f], true)
      | some r =>
        let rest := run_sweep_py measure numOutputs stepsPerOctave fMax fuel (f * r)
        (sweepRecord measure numOutputs f :: rest.1, rest.2)
    else ([], false)

/-- A measurement oracle that always fails (every external tool call fails). -/
def failMeasure : ℝ → Option (List ℝ) := fun _ => none

/-! ## Per-channel RMS extraction (`PluginTester.measure_frequency`, lines 276-307)

```python
rms_values = []
for ch in range(self.num_outputs):
    stat_result = subprocess.run([...'stat'], ...)
    output = stat_result.stdout + stat_result.stderr
    rms = None
    for line in output.split('\n'):
        if 'RMS' in line and 'amplitude:' in line:
            match = re.search(r'amplitude:\s+(\S+)', line)
            if match:
                rms = float(match.group(1))
                break
    rms_values.append(rms if rms is not None else 0.0)
return rms_values
```

wrapped in `try: ... except (subprocess.CalledProcessError, ValueError): return None`,
so a `ValueError` raised by `float(...)` makes the *whole* measurement fail.
The `sox`/`riaa_process` invocations earlier in the function are modelled by
the Boolean oracles `genOk` and `procOk` (their `returncode != 0` checks each
`return None`), and each channel's combined `stdout + stderr` text by the
oracle `reports`.
-/

/-- Python's `\s` character class (`[ \t\n\r\x0b\x0c]`). -/
def isPySpace (c : Char) : Bool :=
  c == ' ' || c == '\t' || c == '\n' || c == '\r' ||
    c == Char.ofNat 11 || c == Char.ofNat 12

/-- Python's `pat in s` substring test. -/
def containsSub (pat : List Char) : List Char → Bool
  | [] => pat.isEmpty
  | c :: t => pat.isPrefixOf (c :: t) || containsSub pat t

/-- Try to match the regex `amplitude:\s+(\S+)` at the very start of `s`,
returning the captured group. -/
def tryAmpAt (s : List Char) : Option (List Char) :=
  if (("amplitude:").toList).isPrefixOf s then
    let rest := s.drop (("amplitude:").toList).length
    if (rest.takeWhile isPySpace).isEmpty then none
    else
      let tok := (rest.dropWhile isPySpace).takeWhile (fun c => !isPySpace c)
      if tok.isEmpty then none else some tok
  else none

/-- `re.search(r'amplitude:\s+(\S+)', line)`: leftmost match of the pattern,
returning the captured non-whitespace token. -/
def ampSearch : List Char → Option (List Char)
  | [] => none
  | c :: t =>
    match tryAmpAt (c :: t) with
    | some tok => some tok
    | none => ampSearch t

/-- Python's `str.split('\n')` (a trailing newline yields a trailing empty
line, and the empty string yields one empty line). -/
def splitOnNl : List Char → List (List Char)
  | [] => [[]]
  | c :: t =>
    if c == '\n' then [] :: splitOnNl t
    else
      match splitOnNl t with
      | [] => [[c]]
      | l :: ls => (c :: l) :: ls

/-- The `for line in output.split('\n')` loop: the token of the first line
that contains both `'RMS'` and `'amplitude:'` as substrings *and* on which
the regex search succeeds (a line passing the substring test but failing the
regex is skipped, not a hit). -/
def findRmsLine : List (List Char) → Option (List Char)
  | [] => none
  | line :: rest =>
    if containsSub (("RMS").toList) line && containsSub (("amplitude:").toList) line then
      match ampSearch line with
      | some tok => some tok
      | none => findRmsLine rest
    else findRmsLine rest

/-- First RMS-amplitude token of a channel's `sox ... stat` report. -/
def extractRmsToken (report : String) : Option (List Char) :=
  findRmsLine (splitOnNl report.toList)

def isPyDigit (c : Char) : Bool := c.isDigit

/-- Value of a list of decimal digit characters. -/
def digitsVal (ds : List Char) : ℕ :=
  ds.foldl (fun n c => 10 * n + (c.toNat - 48)) 0

/-- Optional sign at the head of a numeric literal. -/
def pySign : List Char → ℚ × List Char
  | '+' :: t => (1, t)
  | '-' :: t => (-1, t)
  | t => (1, t)

/-- Exponent suffix of a Python float literal (`[eE][+-]?digits`), which must
consume the rest of the input; an empty input means exponent `0`. -/
def parseExpSuffix : List Char → Option ℤ
  | [] => some 0
  | c :: t =>
    if c == 'e' || c == 'E' then
      let (sgn, t1) : ℤ × List Char :=
        match t with
        | '+' :: r => (1, r)
        | '-' :: r => (-1, r)
        | r => (1, r)
      let ds := t1.takeWhile isPyDigit
      if ds.isEmpty || !(t1.dropWhile isPyDigit).isEmpty then none
      else some (sgn * digitsVal ds)
    else none

/-- Python's `float(str)` builtin on the decimal grammar
`[ws] [sign] (digits [. digits] | . digits) [(e|E) [sign] digits] [ws]`;
`none` models a raised `ValueError`.  (The `inf`/`nan` forms and digit-group
underscores, which never occur in `sox stat` output, are not modelled.) -/
def pyFloat (s : List Char) : Option ℚ :=
  let t := ((s.dropWhile isPySpace).reverse.dropWhile isPySpace).reverse
  let (sgn, t1) := pySign t
  let ip := t1.takeWhile isPyDigit
  let t2 := t1.dropWhile isPyDigit
  match t2 with
  | '.' :: r =>
    let fp := r.takeWhile isPyDigit
    let t3 := r.dropWhile isPyDigit
    if ip.isEmpty && fp.isEmpty then none
    else
      match parseExpSuffix t3 with
      | none => none
      | some e =>
        some (sgn * ((digitsVal ip : ℚ) + (digitsVal fp : ℚ) / 10 ^ fp.length) * 10 ^ e)
  | _ =>
    if ip.isEmpty then none
    else
      match parseExpSuffix t2 with
      | none => none
      | some e => some (sgn * (digitsVal ip : ℚ) * 10 ^ e)

/-- The per-channel body of the statistics loop: parse the first RMS field of
the report; no field found means `0.0`; a found token that `float()` rejects
raises `ValueError`, modelled as `none`. -/
def channelRms (report : String) : Option ℚ :=
  match extractRmsToken report with
  | none => some 0
  | some tok => pyFloat tok

/-- Left-to-right effectful map over `Option`, aborting at the first `none`
(the `for` loop with an exception escaping it). -/
def mapMOpt {α β : Type} (f : α → Option β) : List α → Option (List β)
  | [] => some []
  | a :: t =>
    match f a with
    | none => none
    | some b =>
      match mapMOpt f t with
      | none => none
      | some bs => some (b :: bs)

/-- `measure_frequency`, given oracles for the three external tools: `none`
models `return None` (generator failure, processor failure, or a
`ValueError` from `float` caught by the `except` clause). -/
def measure_frequency (genOk procOk : Bool) (reports : ℕ → String)
    (numOutputs : ℕ) : Option (List ℚ) :=
  if !genOk then none
  else if !procOk then none
  else mapMOpt (fun ch => channelRms (reports ch)) (List.range numOutputs)

/-- `measure_frequency` as the per-frequency measurement oracle consumed by
`run_sweep`, with the tool oracles depending on the frequency. -/
noncomputable def measure_frequency_R (genOk procOk : ℝ → Bool)
    (reports : ℝ → ℕ → String) (numOutputs : ℕ) (frequency : ℝ) :
    Option (List ℝ) :=
  (measure_frequency (genOk frequency) (procOk frequency) (reports frequency)
      numOutputs).map (fun l => l.map (fun q : ℚ => (q : ℝ)))

/-! ## Result table writer (`PluginTester.write_results`, lines 354-370)

```python
header = "Frequency"
for ch in range(self.num_outputs):
    header += f"\tChannel_{ch}"
f.write(header + "\n")
for freq, db_values in results:
    line = f"{freq:.3f}"
    for db in db_values:
        line += f"\t{db:.2f}"
    f.write(line + "\n")
```

The file contents are modelled as the list of written lines.
-/

def header_line (numOutputs : ℕ) : String :=
  "Frequency" ++
    String.join ((List.range numOutputs).map (fun ch => "\t" ++ "Channel_" ++ toString ch))

def padZeros (d : ℕ) (s : String) : String :=
  String.mk (List.replicate (d - s.length) '0') ++ s

/-- The fixed-point format specifier `{x:.df}`: round to `d` decimal places
and render with exactly `d` fractional digits.  (CPython formats the exact
binary double with ties-to-even; ties are immaterial for the properties
proved here.) -/
noncomputable def formatFixed (d : ℕ) (x : ℝ) : String :=
  let n : ℤ := round (x * 10 ^ d)
  let m : ℕ := n.natAbs
  (if n < 0 then "-" else "") ++ toString (m / 10 ^ d) ++ "." ++
    padZeros d (toString (m % 10 ^ d))

/-- One data row: frequency at 3 decimal places, then one tab-separated dB
value per channel at 2 decimal places. -/
noncomputable def result_line (rec : ℝ × List ℝ) : String :=
  formatFixed 3 rec.1 ++ String.join (rec.2.map (fun db => "\t" ++ formatFixed 2 db))

/-- `write_results`: the lines written to the output file, in order. -/
noncomputable def write_results (numOutputs : ℕ)
    (results : List (ℝ × List ℝ)) : List String :=
  header_line numOutputs :: results.map result_line

/-! ## Plotter data contract (`PluginTester.plot_results`, lines 372-428)

Only the two parts with a data contract are embedded: the auto-scale
filter that drops sentinel values,

```python
db_values = [r[1][ch] for r in results if r[1][ch] > -200]
```

and the derivation of the image path,

```python
plot_file = self.output_file.replace('.txt', '.png')
```
-/

/-- The list-comprehension filter feeding the auto-scale computation: channel
`ch`'s values over all records, keeping only those `> -200`. -/
noncomputable def channelPlotValues (results : List (ℝ × List ℝ)) (ch : ℕ) : List ℝ :=
  (results.filter (fun r => -200 < r.2.getD ch 0)).map (fun r => r.2.getD ch 0)

/-- Python's `str.replace(pat, rep)` — replace every non-overlapping
occurrence, left to right — on character lists, with fuel for structural
termination (`fuel ≥ s.length` always suffices, and any shortfall can only
leave a suffix unreplaced, never misreplace). -/
def replaceAllFuel (pat rep : List Char) : ℕ → List Char → List Char
  | 0, s => s
  | _ + 1, [] => []
  | fuel + 1, c :: t =>
    if !pat.isEmpty && pat.isPrefixOf (c :: t) then
      rep ++ replaceAllFuel pat rep fuel ((c :: t).drop pat.length)
    else c :: replaceAllFuel pat rep fuel t

def replaceAll (pat rep s : List Char) : List Char :=
  replaceAllFuel pat rep s.length s

/-- `plot_file = self.output_file.replace('.txt', '.png')`. -/
def plot_file (outputFile : String) : String :=
  String.mk (replaceAll ((".txt").toList) ((".png").toList) outputFile.toList)

/-! ## Claim C3: window planner -/

/-- Claim C3: for every frequency > 0, `adaptive_duration` equals
`min(max(100 * (1/frequency), 1.0), 10.0)`, so it always lies in
`[1.0, 10.0]`, with value `10.0` at frequency `0.1` and `1.0` at frequency
`1000`; and the trim window scales proportionally:
`trim_start = 0.2 * adaptive_duration / duration` and
`trim_len = 0.6 * adaptive_duration / duration`. -/
theorem window_planner_spec (f d : ℝ) (_hf : 0 < f) :
    adaptive_duration f = min (max (100 * (1 / f)) 1) 10
    ∧ 1 ≤ adaptive_duration f
    ∧ adaptive_duration f ≤ 10
    ∧ adaptive_duration 0.1 = 10
    ∧ adaptive_duration 1000 = 1
    ∧ trim_start_adj f d = 0.2 * adaptive_duration f / d
    ∧ trim_len_adj f d = 0.6 * adaptive_duration f / d := by
  refine ⟨rfl, ?_, ?_, ?_, ?_, rfl, rfl⟩
  · exact le_min (le_max_right _ _) (by norm_num)
  · exact min_le_right _ _
  · unfold adaptive_duration
    rw [show (100 : ℝ) * (1 / 0.1) = 1000 by norm_num,
      max_eq_left (by norm_num : (1 : ℝ) ≤ 1000),
      min_eq_right (by norm_num : (10 : ℝ) ≤ 1000)]
  · unfold adaptive_duration
    rw [show (100 : ℝ) * (1 / 1000) = 0.1 by norm_num,
      max_eq_right (by norm_num : (0.1 : ℝ) ≤ 1),
      min_eq_left (by norm_num : (1 : ℝ) ≤ 10)]

theorem window_planner_spec_witness :
    (0 : ℝ) < 1
    ∧ (adaptive_duration 1 = min (max (100 * (1 / 1)) 1) 10
      ∧ 1 ≤ adaptive_duration 1
      ∧ adaptive_duration 1 ≤ 10
      ∧ adaptive_duration 0.1 = 10
      ∧ adaptive_duration 1000 = 1
      ∧ trim_start_adj 1 1 = 0.2 * adaptive_duration 1 / 1
      ∧ trim_len_adj 1 1 = 0.6 * adaptive_duration 1 / 1) :=
  ⟨by norm_num, window_planner_spec 1 1 (by norm_num)⟩

/-! ## Claim C2: RMS-to-dB conversion -/

/-- Claim C2, counterexample: the claim states that for `rms > 0` the
function returns `20*log10(rms) + 20*log10(sqrt 2)`; at `rms = 1` the code
returns the literal constant `3.0103`, which is strictly *larger* than the
claimed value `20*log10(1) + 20*log10(sqrt 2) = 10*log10(2) ≈ 3.0102999…`,
so the claimed equation fails. -/
theorem rms_to_db_formula_counterexample :
    20 * Real.logb 10 1 + 20 * Real.logb 10 (Real.sqrt 2) < rms_to_db 1 := by
  have h1 : rms_to_db 1 = 3.0103 := by
    unfold rms_to_db
    rw [if_neg (by norm_num : ¬ (1 : ℝ) ≤ 0), Real.logb_one]
    ring
  rw [h1, Real.logb_one, logb_ten_sqrt_two]
  have hu := logb_ten_two_upper
  norm_num
  linarith

/-- Claim C2 as amended: for every `rms ≤ 0`, `rms_to_db rms` returns `-200`;
for every `rms > 0` it returns `20 * log10(rms) + 3.0103` — the literal
constant `3.0103`, which approximates `20*log10(sqrt 2)` to within `0.01` —
hence `rms_to_db 0 = -200`, `rms_to_db (1/sqrt 2)` is within `0.01` of `0`,
and the function is strictly increasing for `rms > 0`. -/
theorem rms_to_db_amended :
    rms_to_db 0 = -200
    ∧ (∀ rms : ℝ, rms ≤ 0 → rms_to_db rms = -200)
    ∧ (∀ rms : ℝ, 0 < rms → rms_to_db rms = 20 * Real.logb 10 rms + 3.0103)
    ∧ |20 * Real.logb 10 (Real.sqrt 2) - 3.0103| < 1 / 100
    ∧ |rms_to_db (1 / Real.sqrt 2)| < 1 / 100
    ∧ (∀ a b : ℝ, 0 < a → a < b → rms_to_db a < rms_to_db b) := by
  have hlo := logb_ten_two_lower
  have hhi := logb_ten_two_upper
  refine ⟨?_, ?_, ?_, ?_, ?_, ?_⟩
  · unfold rms_to_db
    rw [if_pos le_rfl]
  · intro rms h
    unfold rms_to_db
    rw [if_pos h]
  · intro rms h
    unfold rms_to_db
    rw [if_neg (not_le.mpr h)]
  · rw [logb_ten_sqrt_two, abs_lt]
    constructor <;> linarith
  · have hs2 : (0 : ℝ) < Real.sqrt 2 := Real.sqrt_pos.mpr (by norm_num)
    have hpos : (0 : ℝ) < 1 / Real.sqrt 2 := by positivity
    unfold rms_to_db
    rw [if_neg (not_le.mpr hpos), one_div, Real.logb_inv, logb_ten_sqrt_two, abs_lt]
    constructor <;> linarith
  · intro a b ha hab
    have hb : (0 : ℝ) < b := lt_trans ha hab
    have hl := Real.logb_lt_logb (b := 10) (by norm_num) ha hab
    unfold rms_to_db
    rw [if_neg (not_le.mpr ha), if_neg (not_le.mpr hb)]
    linarith

theorem rms_to_db_amended_witness :
    ((0 : ℝ) < 1 ∧ (1 : ℝ) < 2 ∧ (-1 : ℝ) ≤ 0)
    ∧ rms_to_db 1 = 20 * Real.logb 10 1 + 3.0103
    ∧ rms_to_db 1 < rms_to_db 2
    ∧ rms_to_db (-1) = -200 :=
  ⟨⟨by norm_num, by norm_num, by norm_num⟩,
    rms_to_db_amended.2.2.1 1 (by norm_num),
    rms_to_db_amended.2.2.2.2.2 1 2 (by norm_num) (by norm_num),
    rms_to_db_amended.2.1 (-1) (by norm_num)⟩

/-! ## Claim C9: the sentinel is not a lower bound of real conversions -/

/-- Claim C9: there exists `rms > 0` whose conversion falls strictly below
the `-200` failure sentinel (e.g. `rms = 10⁻¹¹`), and such a value is
excluded by the plotter's `> -200` auto-scale filter exactly as a failed
(`-200`) measurement would be. -/
theorem sentinel_not_lower_bound :
    ∃ rms : ℝ, 0 < rms ∧ rms_to_db rms < -200 ∧
      ∀ f : ℝ, channelPlotValues [(f, [rms_to_db rms])] 0 = []
        ∧ channelPlotValues [(f, [(-200 : ℝ)])] 0 = [] := by
  refine ⟨(10 : ℝ) ^ (-(11 : ℝ)), Real.rpow_pos_of_pos (by norm_num) _, ?_, ?_⟩
  · have hdb : rms_to_db ((10 : ℝ) ^ (-(11 : ℝ)))
        = 20 * (-(11 : ℝ)) + 3.0103 := by
      unfold rms_to_db
      rw [if_neg (not_le.mpr (Real.rpow_pos_of_pos (by norm_num) _)),
        Real.logb_rpow (by norm_num) (by norm_num)]
    rw [hdb]
    norm_num
  · intro f
    have hdb : rms_to_db ((10 : ℝ) ^ (-(11 : ℝ)))
        = 20 * (-(11 : ℝ)) + 3.0103 := by
      unfold rms_to_db
      rw [if_neg (not_le.mpr (Real.rpow_pos_of_pos (by norm_num) _)),
        Real.logb_rpow (by norm_num) (by norm_num)]
    constructor
    · have hlt : ¬ (-200 : ℝ) < rms_to_db ((10 : ℝ) ^ (-(11 : ℝ))) := by
        rw [hdb]; norm_num
      simp [channelPlotValues, hlt]
    · have hlt : ¬ (-200 : ℝ) < (-200 : ℝ) := lt_irrefl _
      simp [channelPlotValues, hlt]

/-! ## Claim C10: plot image path derivation -/

lemma replaceAllFuel_of_not_contains (pat rep : List Char) :
    ∀ (fuel : ℕ) (s : List Char), containsSub pat s = false →
      replaceAllFuel pat rep fuel s = s := by
  intro fuel
  induction fuel with
  | zero => intro s _; rfl
  | succ n ih =>
    intro s h
    cases s with
    | nil => rfl
    | cons c t =>
      simp only [containsSub, Bool.or_eq_false_iff] at h
      obtain ⟨h1, h2⟩ := h
      simp only [replaceAllFuel, h1, Bool.and_false, Bool.false_eq_true, if_false]
      rw [ih t h2]

/-- Claim C10: the plot image path is the output-file path with every
occurrence of the substring `.txt` replaced by `.png`; consequently, for
every output path containing no `.txt` substring the derived path equals the
table path itself (so saving the plot would overwrite the just-written
table). -/
theorem plot_path_spec :
    (∀ out : String, containsSub ((".txt").toList) out.toList = false →
      plot_file out = out)
    ∧ plot_file ("riaa_response.txt") = "riaa_response.png"
    ∧ plot_file ("a.txt.txt") = "a.png.png" := by
  refine ⟨?_, by decide, by decide⟩
  intro out h
  unfold plot_file replaceAll
  rw [replaceAllFuel_of_not_contains _ _ _ _ h]
  cases out
  rfl

theorem plot_path_spec_witness :
    containsSub ((".txt").toList) (("resp.dat").toList) = false
    ∧ plot_file ("resp.dat") = "resp.dat" :=
  ⟨by decide, plot_path_spec.1 ("resp.dat") (by decide)⟩

/-! ## Claim C1: frequency ladder -/

lemma one_lt_sweepStep {s : ℕ} (hs : 1 ≤ s) : 1 < sweepStep s := by
  unfold sweepStep
  rw [Real.one_lt_rpow_iff_of_pos (by norm_num)]
  left
  refine ⟨by norm_num, ?_⟩
  have : (0 : ℝ) < (s : ℝ) := by exact_mod_cast Nat.lt_of_lt_of_le Nat.zero_lt_one hs
  positivity

lemma sweepStep_one : sweepStep 1 = 2 := by
  unfold sweepStep
  rw [Nat.cast_one, div_one, Real.rpow_one]

/-- The loop of `run_sweep` produces exactly one record per visited
frequency, in visiting order. -/
lemma run_sweep_eq_map (measure : ℝ → Option (List ℝ)) (numOutputs : ℕ)
    (r fMax : ℝ) : ∀ (fuel : ℕ) (f : ℝ),
    run_sweep measure numOutputs r fMax fuel f
      = (ladderAux r fMax fuel f).map (sweepRecord measure numOutputs) := by
  intro fuel
  induction fuel with
  | zero => intro f; rfl
  | succ m ih =>
    intro f
    simp only [run_sweep, ladderAux]
    by_cases h : f ≤ fMax
    · rw [if_pos h, if_pos h, List.map_cons, ih]
    · rw [if_neg h, if_neg h, List.map_nil]

/-- Characterization of the visited-frequency list: it is the maximal
geometric prefix `f, f*r, f*r², …` of values `≤ fMax`. -/
lemma ladderAux_char {r : ℝ} (hr : 1 < r) :
    ∀ (fuel : ℕ) (f fMax : ℝ), 0 < f → fMax < f * r ^ fuel →
      ∃ n : ℕ, ladderAux r fMax fuel f = (List.range n).map (fun i => f * r ^ i)
        ∧ (∀ i, i < n → f * r ^ i ≤ fMax)
        ∧ fMax < f * r ^ n := by
  intro fuel
  induction fuel with
  | zero =>
    intro f fMax hf hfuel
    exact ⟨0, rfl, fun i hi => absurd hi (Nat.not_lt_zero i), hfuel⟩
  | succ m ih =>
    intro f fMax hf hfuel
    by_cases hle : f ≤ fMax
    · have hr0 : (0 : ℝ) < r := lt_trans zero_lt_one hr
      have hf' : 0 < f * r := mul_pos hf hr0
      have hfuel' : fMax < (f * r) * r ^ m := by
        have he : (f * r) * r ^ m = f * r ^ (m + 1) := by rw [pow_succ]; ring
        rw [he]
        exact hfuel
      obtain ⟨n, hlist, hbound, hnext⟩ := ih (f * r) fMax hf' hfuel'
      refine ⟨n + 1, ?_, ?_, ?_⟩
      · simp only [ladderAux]
        rw [if_pos hle, hlist, List.range_succ_eq_map, List.map_cons, List.map_map]
        simp only [pow_zero, mul_one]
        congr 1
        apply List.map_congr_left
        intro i _
        simp only [Function.comp_apply, pow_succ]
        ring
      · intro i hi
        cases i with
        | zero => simpa using hle
        | succ j =>
          have hj : j < n := by omega
          have hb := hbound j hj
          have he : f * r ^ (j + 1) = (f * r) * r ^ j := by rw [pow_succ]; ring
          rw [he]
          exact hb
      · have he : f * r ^ (n + 1) = (f * r) * r ^ n := by rw [pow_succ]; ring
        rw [he]
        exact hnext
    · refine ⟨0, ?_, fun i hi => absurd hi (Nat.not_lt_zero i), by simpa using not_le.mp hle⟩
      simp only [ladderAux]
      rw [if_neg hle, List.range_zero, List.map_nil]

/-- Claim C1: for every `fMin > 0` and integer `stepsPerOctave ≥ 1` (and any
fuel large enough for the loop to terminate), the sequence of frequencies
visited by the sweep is exactly the list of records' frequencies; when
`fMin ≤ fMax` it is the maximal prefix of the geometric progression
`fMin * (2^(1/steps))^i` whose elements are all `≤ fMax` (the first
over-range value excluded), it starts at `fMin`, each subsequent element is
the previous one times `2^(1/steps)`, and it is strictly increasing; when
`fMin > fMax` it is empty. -/
theorem freq_ladder_spec (fMin fMax : ℝ) (s fuel : ℕ)
    (hs : 1 ≤ s) (hMin : 0 < fMin)
    (hfuel : fMax < fMin * sweepStep s ^ fuel) :
    (∀ (measure : ℝ → Option (List ℝ)) (numOutputs : ℕ),
        (run_sweep measure numOutputs (sweepStep s) fMax fuel fMin).map Prod.fst
          = ladderAux (sweepStep s) fMax fuel fMin)
    ∧ (fMin ≤ fMax →
        ∃ n : ℕ, 0 < n
          ∧ ladderAux (sweepStep s) fMax fuel fMin
              = (List.range n).map (fun i => fMin * sweepStep s ^ i)
          ∧ (∀ i, i < n → fMin * sweepStep s ^ i ≤ fMax)
          ∧ fMax < fMin * sweepStep s ^ n
          ∧ (ladderAux (sweepStep s) fMax fuel fMin).head? = some fMin
          ∧ (ladderAux (sweepStep s) fMax fuel fMin).Chain'
              (fun a b => b = a * sweepStep s)
          ∧ (ladderAux (sweepStep s) fMax fuel fMin).Chain' (· < ·))
    ∧ (fMax < fMin → ladderAux (sweepStep s) fMax fuel fMin = []) := by
  have hr : 1 < sweepStep s := one_lt_sweepStep hs
  have hr0 : (0 : ℝ) < sweepStep s := lt_trans zero_lt_one hr
  refine ⟨?_, ?_, ?_⟩
  · intro measure numOutputs
    rw [run_sweep_eq_map, List.map_map]
    have : (Prod.fst ∘ sweepRecord measure numOutputs) = id := by
      funext g
      rfl
    rw [this, List.map_id]
  · intro hle
    obtain ⟨n, hlist, hbound, hnext⟩ :=
      ladderAux_char hr fuel fMin fMax hMin hfuel
    have hn : 0 < n := by
      rcases Nat.eq_zero_or_pos n with h0 | h0
      · exfalso
        rw [h0, pow_zero, mul_one] at hnext
        linarith
      · exact h0
    obtain ⟨m, rfl⟩ : ∃ m, n = m + 1 := ⟨n - 1, by omega⟩
    refine ⟨m + 1, hn, hlist, hbound, hnext, ?_, ?_, ?_⟩
    · rw [hlist, List.range_succ_eq_map, List.map_cons]
      simp
    · rw [hlist, List.chain'_map]
      rw [List.chain'_range_succ]
      intro i _
      rw [pow_succ]
      ring
    · rw [hlist, List.chain'_map]
      rw [List.chain'_range_succ]
      intro i _
      have hp : (0 : ℝ) < fMin * sweepStep s ^ i :=
        mul_pos hMin (pow_pos hr0 i)
      calc fMin * sweepStep s ^ i
          < (fMin * sweepStep s ^ i) * sweepStep s := lt_mul_of_one_lt_right hp hr
        _ = fMin * sweepStep s ^ (i + 1) := by rw [pow_succ]; ring
  · intro h
    cases fuel with
    | zero => rfl
    | succ m =>
      simp only [ladderAux]
      rw [if_neg (not_le.mpr h)]

theorem freq_ladder_spec_witness :
    ((1 : ℕ) ≤ 1 ∧ (0 : ℝ) < 100 ∧ (400 : ℝ) < 100 * sweepStep 1 ^ 3)
    ∧ ((∀ (measure : ℝ → Option (List ℝ)) (numOutputs : ℕ),
        (run_sweep measure numOutputs (sweepStep 1) 400 3 100).map Prod.fst
          = ladderAux (sweepStep 1) 400 3 100)
      ∧ ((100 : ℝ) ≤ 400 →
          ∃ n : ℕ, 0 < n
            ∧ ladderAux (sweepStep 1) 400 3 100
                = (List.range n).map (fun i => 100 * sweepStep 1 ^ i)
            ∧ (∀ i, i < n → (100 : ℝ) * sweepStep 1 ^ i ≤ 400)
            ∧ (400 : ℝ) < 100 * sweepStep 1 ^ n
            ∧ (ladderAux (sweepStep 1) 400 3 100).head? = some 100
            ∧ (ladderAux (sweepStep 1) 400 3 100).Chain'
                (fun a b => b = a * sweepStep 1)
            ∧ (ladderAux (sweepStep 1) 400 3 100).Chain' (· < ·))
      ∧ ((400 : ℝ) < 100 → ladderAux (sweepStep 1) 400 3 100 = [])) :=
  ⟨⟨le_rfl, by norm_num, by rw [sweepStep_one]; norm_num⟩,
    freq_ladder_spec 100 400 1 3 le_rfl (by norm_num)
      (by rw [sweepStep_one]; norm_num)⟩

/-! ## Claim C4: sweep resilience -/

/-- Claim C4: the sweep is exactly one record per ladder frequency, in ladder
order — a failed measurement (`measure g = none`) contributes a record whose
channel vector is `numOutputs` copies of the `-200` sentinel, and every
subsequent ladder frequency is still processed; no frequency is measured
more than once (each ladder element is mapped through `sweepRecord` exactly
once) and no retry is performed. -/
theorem sweep_resilience_spec (measure : ℝ → Option (List ℝ)) (numOutputs : ℕ)
    (r fMax : ℝ) (fuel : ℕ) (fMin : ℝ) :
    run_sweep measure numOutputs r fMax fuel fMin
      = (ladderAux r fMax fuel fMin).map (sweepRecord measure numOutputs)
    ∧ (∀ g : ℝ, measure g = none →
        sweepRecord measure numOutputs g = (g, List.replicate numOutputs (-200)))
    ∧ (run_sweep measure numOutputs r fMax fuel fMin).length
        = (ladderAux r fMax fuel fMin).length := by
  refine ⟨run_sweep_eq_map _ _ _ _ _ _, ?_, ?_⟩
  · intro g hg
    unfold sweepRecord
    rw [hg]
  · rw [run_sweep_eq_map, List.length_map]

theorem sweep_resilience_spec_witness :
    failMeasure 5 = none
    ∧ sweepRecord failMeasure 2 5 = (5, List.replicate 2 (-200)) :=
  ⟨rfl, (sweep_resilience_spec failMeasure 2 2 50000 1 5).2.1 5 rfl⟩

/-! ## Helper lemmas about the channel loop -/

lemma mapMOpt_length {α β : Type} (f : α → Option β) :
    ∀ (l : List α) (res : List β), mapMOpt f l = some res →
      res.length = l.length := by
  intro l
  induction l with
  | nil =>
    intro res h
    simp only [mapMOpt, Option.some_inj] at h
    subst h
    rfl
  | cons x t ih =>
    intro res h
    simp only [mapMOpt] at h
    cases hfx : f x with
    | none => rw [hfx] at h; simp at h
    | some b =>
      rw [hfx] at h
      cases hmt : mapMOpt f t with
      | none => rw [hmt] at h; simp at h
      | some bs =>
        rw [hmt] at h
        simp only [Option.some_inj] at h
        subst h
        simp [ih bs hmt]

lemma mapMOpt_get {α β : Type} (f : α → Option β) :
    ∀ (l : List α) (res : List β), mapMOpt f l = some res →
      ∀ (i : ℕ) (a : α), l[i]? = some a → res[i]? = f a := by
  intro l
  induction l with
  | nil =>
    intro res h i a hi
    simp at hi
  | cons x t ih =>
    intro res h i a hi
    simp only [mapMOpt] at h
    cases hfx : f x with
    | none => rw [hfx] at h; simp at h
    | some b =>
      rw [hfx] at h
      cases hmt : mapMOpt f t with
      | none => rw [hmt] at h; simp at h
      | some bs =>
        rw [hmt] at h
        simp only [Option.some_inj] at h
        subst h
        cases i with
        | zero =>
          simp only [List.getElem?_cons_zero, Option.some_inj] at hi
          subst hi
          simp [hfx]
        | succ j =>
          simp only [List.getElem?_cons_succ] at hi
          simpa using ih bs hmt j a hi

lemma mapMOpt_none_of_mem {α β : Type} (f : α → Option β) :
    ∀ (l : List α) (a : α), a ∈ l → f a = none → mapMOpt f l = none := by
  intro l
  induction l with
  | nil =>
    intro a ha
    simp at ha
  | cons x t ih =>
    intro a ha hfa
    simp only [mapMOpt]
    rcases List.mem_cons.mp ha with h | h
    · subst h
      rw [hfa]
    · cases hfx : f x with
      | none => rfl
      | some b => rw [ih a h hfa]

lemma measure_frequency_length (genOk procOk : Bool) (reports : ℕ → String)
    (numOutputs : ℕ) (l : List ℚ)
    (h : measure_frequency genOk procOk reports numOutputs = some l) :
    l.length = numOutputs := by
  cases genOk with
  | false => simp [measure_frequency] at h
  | true =>
    cases procOk with
    | false => simp [measure_frequency] at h
    | true =>
      simp only [measure_frequency, Bool.not_true, Bool.false_eq_true,
        if_false] at h
      rw [mapMOpt_length _ _ _ h, List.length_range]

/-! ## Claim C5: record-shape invariant -/

/-- Claim C5: every record produced by the sweep — driven by the real
measurement pipeline `measure_frequency`, whether it succeeds or fails —
carries a channel-dB vector of length exactly `numOutputs` (failure fills
the vector with sentinels instead of shortening it). -/
theorem record_shape_spec (genOk procOk : ℝ → Bool) (reports : ℝ → ℕ → String)
    (numOutputs : ℕ) (r fMax : ℝ) (fuel : ℕ) (fMin : ℝ) :
    ∀ rec ∈ run_sweep (measure_frequency_R genOk procOk reports numOutputs)
        numOutputs r fMax fuel fMin,
      rec.2.length = numOutputs := by
  intro rec hrec
  rw [run_sweep_eq_map] at hrec
  obtain ⟨g, _, rfl⟩ := List.mem_map.mp hrec
  unfold sweepRecord
  cases hm : measure_frequency_R genOk procOk reports numOutputs g with
  | none => simp [hm]
  | some rms =>
    simp only [hm, List.length_map]
    unfold measure_frequency_R at hm
    obtain ⟨l, hm0, hml⟩ := Option.map_eq_some'.mp hm
    rw [← hml, List.length_map]
    exact measure_frequency_length _ _ _ _ _ hm0

theorem record_shape_spec_witness :
    ((1 : ℝ), [rms_to_db 0]) ∈ run_sweep
        (measure_frequency_R (fun _ => true) (fun _ => true) (fun _ _ => "") 1)
        1 2 1 1 1
    ∧ ([rms_to_db 0] : List ℝ).length = 1 := by
  have hM : measure_frequency_R (fun _ => true) (fun _ => true) (fun _ _ => "") 1 1
      = some [(0 : ℝ)] := by
    unfold measure_frequency_R
    rw [show measure_frequency true true (fun _ => "") 1 = some [0] from by decide]
    simp
  have hrun : run_sweep
      (measure_frequency_R (fun _ => true) (fun _ => true) (fun _ _ => "") 1)
      1 2 1 1 1 = [((1 : ℝ), [rms_to_db 0])] := by
    simp only [run_sweep, if_pos (le_refl (1 : ℝ))]
    unfold sweepRecord
    rw [hM]
    rfl
  have hmem : ((1 : ℝ), [rms_to_db 0]) ∈ run_sweep
      (measure_frequency_R (fun _ => true) (fun _ => true) (fun _ _ => "") 1)
      1 2 1 1 1 := by
    rw [hrun]
    exact List.mem_singleton.mpr rfl
  exact ⟨hmem,
    record_shape_spec (fun _ => true) (fun _ => true) (fun _ _ => "") 1 2 1 1 1
      _ hmem⟩

/-! ## Claim C6: validation of `--steps` -/

/-- Sanity check: for a positive integer steps setting the crash-aware model
agrees with `run_sweep` and never crashes. -/
lemma run_sweep_py_eq_run_sweep (measure : ℝ → Option (List ℝ))
    (numOutputs : ℕ) (s : ℕ) (hs : 1 ≤ s) (fMax : ℝ) :
    ∀ (fuel : ℕ) (f : ℝ),
      run_sweep_py measure numOutputs (s : ℤ) fMax fuel f
        = (run_sweep measure numOutputs (sweepStep s) fMax fuel f, false) := by
  have hfac : py_step_factor (s : ℤ) = some (sweepStep s) := by
    unfold py_step_factor sweepStep
    rw [if_neg (show (s : ℤ) ≠ 0 by exact_mod_cast Nat.one_le_iff_ne_zero.mp hs),
      Int.cast_natCast]
  intro fuel
  induction fuel with
  | zero => intro f; rfl
  | succ m ih =>
    intro f
    simp only [run_sweep_py, run_sweep, hfac]
    by_cases h : f ≤ fMax
    · rw [if_pos h, if_pos h, ih]
    · rw [if_neg h, if_neg h]

/-- Claim C6 concerns a code bug: the program performs *no* validation of
`stepsPerOctave ≤ 0`.  With `--steps 0` the sweep loop measures the first
frequency `fMin`, appends its record, and only then crashes with
`ZeroDivisionError` while computing `2 ** (1/0)` — so the configuration is
not rejected before measurement begins, contradicting the claim.  With
`--steps < 0` the step factor is accepted and is `< 1`, so the "ladder"
silently decreases instead of being rejected. -/
theorem steps_validation_code_bug :
    (∀ (measure : ℝ → Option (List ℝ)) (numOutputs : ℕ) (fMax : ℝ)
        (fuel : ℕ) (fMin : ℝ), fMin ≤ fMax →
        run_sweep_py measure numOutputs 0 fMax (fuel + 1) fMin
          = ([sweepRecord measure numOutputs fMin], true))
    ∧ (∀ steps : ℤ, steps < 0 → ∃ r : ℝ, py_step_factor steps = some r
        ∧ 0 < r ∧ r < 1 ∧ ∀ f : ℝ, 0 < f → f * r < f) := by
  constructor
  · intro measure n fMax fuel fMin hle
    have h0 : py_step_factor 0 = none := by
      unfold py_step_factor
      rw [if_pos rfl]
    simp only [run_sweep_py, h0]
    rw [if_pos hle]
  · intro steps hneg
    have hne : steps ≠ 0 := by omega
    have hlt1 : (2 : ℝ) ^ ((1 : ℝ) / (steps : ℝ)) < 1 := by
      apply Real.rpow_lt_one_of_one_lt_of_neg (by norm_num)
      have hsr : (steps : ℝ) < 0 := by exact_mod_cast hneg
      exact div_neg_of_pos_of_neg one_pos hsr
    have hpos : (0 : ℝ) < (2 : ℝ) ^ ((1 : ℝ) / (steps : ℝ)) :=
      Real.rpow_pos_of_pos (by norm_num) _
    refine ⟨(2 : ℝ) ^ ((1 : ℝ) / (steps : ℝ)), ?_, hpos, hlt1, ?_⟩
    · unfold py_step_factor
      rw [if_neg hne]
    · intro f hf
      calc f * (2 : ℝ) ^ ((1 : ℝ) / (steps : ℝ)) < f * 1 :=
            mul_lt_mul_of_pos_left hlt1 hf
        _ = f := mul_one f

theorem steps_validation_code_bug_witness :
    ((5 : ℝ) ≤ 50000)
    ∧ run_sweep_py failMeasure 1 0 50000 4 5
        = ([((5 : ℝ), List.replicate 1 (-200))], true) := by
  refine ⟨by norm_num, ?_⟩
  have h := steps_validation_code_bug.1 failMeasure 1 50000 3 5 (by norm_num)
  rw [h]
  unfold sweepRecord failMeasure
  rfl

/-! ## Claim C7: result table serialization -/

/-- Claim C7: the writer emits the tab-delimited header naming each of the
`numOutputs` channel columns, followed by exactly one data row per record in
record (= ladder) order, the frequency formatted to 3 decimal places and
each dB value to 2; the data-row count equals the ladder length exactly. -/
theorem result_table_spec (measure : ℝ → Option (List ℝ)) (numOutputs : ℕ)
    (r fMax : ℝ) (fuel : ℕ) (fMin : ℝ) :
    write_results numOutputs (run_sweep measure numOutputs r fMax fuel fMin)
      = header_line numOutputs
        :: (ladderAux r fMax fuel fMin).map
            (fun g => result_line (sweepRecord measure numOutputs g))
    ∧ (write_results numOutputs
          (run_sweep measure numOutputs r fMax fuel fMin)).length
        = (ladderAux r fMax fuel fMin).length + 1
    ∧ header_line 2 = "Frequency" ++ "\tChannel_0" ++ "\tChannel_1"
    ∧ (∀ rec : ℝ × List ℝ, result_line rec
        = formatFixed 3 rec.1
          ++ String.join (rec.2.map (fun db => "\t" ++ formatFixed 2 db))) := by
  refine ⟨?_, ?_, by decide, fun rec => rfl⟩
  · unfold write_results
    rw [run_sweep_eq_map, List.map_map]
    rfl
  · unfold write_results
    rw [run_sweep_eq_map]
    simp

/-! ## Claim C8: per-channel RMS extraction -/

/-- Claim C8, counterexample: a channel report whose first RMS-amplitude
field holds a token that `float()` cannot parse does *not* degrade to an RMS
of `0.0` — the `ValueError` is caught by the outer `except`, failing the
whole measurement (`None`), contrary to the claim that the measurement
still succeeds. -/
theorem rms_extraction_counterexample :
    extractRmsToken ("RMS     amplitude:          abc") = some (("abc").toList)
    ∧ pyFloat (("abc").toList) = none
    ∧ measure_frequency true true (fun _ => ("RMS     amplitude:          abc")) 1
        = none :=
  ⟨by decide, by decide, by decide⟩

/-- Claim C8 as amended: for each output channel the pipeline parses the
first RMS-amplitude field of that channel's report; a channel whose report
contains no RMS field yields `0.0` for that channel and is not by itself a
failure; but a channel whose found token fails to parse as a float makes
the whole measurement fail (`None`). -/
theorem rms_extraction_amended (reports : ℕ → String) (numOutputs : ℕ) :
    (∀ l : List ℚ,
        measure_frequency true true reports numOutputs = some l →
        l.length = numOutputs
          ∧ ∀ ch, ch < numOutputs → extractRmsToken (reports ch) = none →
              l[ch]? = some 0)
    ∧ (∀ ch, ch < numOutputs → ∀ tok,
        extractRmsToken (reports ch) = some tok → pyFloat tok = none →
        measure_frequency true true reports numOutputs = none) := by
  constructor
  · intro l hl
    have hl' : mapMOpt (fun ch => channelRms (reports ch)) (List.range numOutputs)
        = some l := by
      simpa [measure_frequency] using hl
    constructor
    · rw [mapMOpt_length _ _ _ hl', List.length_range]
    · intro ch hch hnone
      have hr : (List.range numOutputs)[ch]? = some ch := by
        simp [hch]
      have hg := mapMOpt_get _ _ _ hl' ch ch hr
      rw [hg]
      unfold channelRms
      rw [hnone]
  · intro ch hch tok htok hparse
    have hmem : ch ∈ List.range numOutputs := List.mem_range.mpr hch
    have hcr : channelRms (reports ch) = none := by
      unfold channelRms
      rw [htok]
      exact hparse
    have hnone := mapMOpt_none_of_mem (fun ch => channelRms (reports ch))
      (List.range numOutputs) ch hmem hcr
    simpa [measure_frequency] using hnone

theorem rms_extraction_amended_witness :
    ((0 : ℕ) < 1
      ∧ extractRmsToken ("RMS amplitude: xyz") = some (("xyz").toList)
      ∧ pyFloat (("xyz").toList) = none)
    ∧ measure_frequency true true (fun _ => ("RMS amplitude: xyz")) 1 = none :=
  ⟨⟨by norm_num, by decide, by decide⟩,
    (rms_extraction_amended (fun _ => ("RMS amplitude: xyz")) 1).2 0 (by norm_num)
      (("xyz").toList) (by decide) (by decide)⟩

end PluginTester
